import Mathlib

/-!
Verification of the audio capture/segmentation core (`audio_capture.py`) of the
`bluely` repository: a shallow embedding of the chunk-classification logic, the
voice-activity segmentation loop (`_manual_recording`), the whole-buffer speech
check (`_is_actual_speech`), and the latest-utterance store
(`_save_audio_chunk`, `get_latest_audio_file`, `clear_latest_audio`),
together with theorems settling the specification claims about them.

Conventions of the embedding:
* 16-bit samples are modelled as integers (`ℤ`); a chunk (`data = stream.read(...)`
  re-interpreted by `np.frombuffer(..., dtype=np.int16)`) is a `List ℤ`.
* Wall-clock times (`time.time()`) are exact rationals (`ℚ`).
* The source computes `volume = np.sqrt(np.mean(audio_data.astype(np.float64)**2))`
  and only ever compares it against nonnegative thresholds.  Since the square
  root is strictly monotone on nonnegatives, `volume > c` (for `c ≥ 0`) holds
  exactly when `mean-of-squares > c ^ 2`.  The embedding therefore tracks the
  mean of squares (`chunkVolumeSq`) exactly in `ℚ` and squares the thresholds
  at each comparison; the float64 computation on int16 data can neither
  overflow to infinity nor produce NaN on nonempty input, so the source's
  `isnan`/`isinf` fallback to `0.0` has no reachable counterpart in the exact
  semantics (the empty-input fallback to `0.0` is modelled directly).
-/

set_option maxRecDepth 8000

namespace AudioCapture

/-- `AudioCapture.__init__`: `self.silence_threshold = 100`. -/
def silence_threshold : ℚ := 100

/-- `AudioCapture.__init__`: `self.silence_duration = 1.0` (seconds). -/
def silence_duration : ℚ := 1

/-- `AudioCapture.__init__`: `self.min_recording_duration = 0.5` (seconds). -/
def min_recording_duration : ℚ := 1/2

/-- `AudioCapture.__init__`: `self.speech_threshold = 150`. -/
def speech_threshold : ℚ := 150

/-- `AudioCapture.__init__`: `self.sample_rate = Config.SAMPLE_RATE` (16000 Hz,
the default the spec claims fix). -/
def sample_rate : ℚ := 16000

/-- Sum of squared samples: the exact value of `np.mean(a.astype(np.float64)**2)`
is `sumsq a / a.length`. -/
def sumsq (l : List ℤ) : ℤ :=
  (l.map fun x => x * x).sum

/-- Lines 102-110 of `audio_capture.py` (and, identically, lines 150-158):
the squared volume of a sample buffer.  The source computes
`volume = np.sqrt(np.mean(audio_data.astype(np.float64)**2))` when
`len(audio_data) > 0` and `volume = 0.0` otherwise; the embedding keeps the
squared value, which determines every comparison the source makes (see the
module docstring). -/
def chunkVolumeSq (samples : List ℤ) : ℚ :=
  if 0 < samples.length then (sumsq samples : ℚ) / (samples.length : ℚ) else 0

/-- Wrap an integer to numpy's `int16` range, as the int16 subtraction
`np.max(audio_array) - np.min(audio_array)` on line 165 does. -/
def toInt16 (x : ℤ) : ℤ :=
  (x + 32768) % 65536 - 32768

/-- `np.max` over a sample buffer (the source only evaluates it on nonempty
buffers; the `[]` case is an arbitrary default). -/
def listMax : List ℤ → ℤ
  | [] => 0
  | x :: t => t.foldl max x

/-- `np.min` over a sample buffer (the source only evaluates it on nonempty
buffers; the `[]` case is an arbitrary default). -/
def listMin : List ℤ → ℤ
  | [] => 0
  | x :: t => t.foldl min x

/-- Helper for `signChanges`: counts positions where the numpy sign of the
current element differs from the sign of the previous element `p`. -/
def signChangesAux : ℤ → List ℤ → ℕ
  | _, [] => 0
  | p, x :: t => (if Int.sign p ≠ Int.sign x then 1 else 0) + signChangesAux x t

/-- Line 168: `zero_crossings = np.sum(np.diff(np.sign(audio_array)) != 0)`,
the number of adjacent pairs whose numpy sign (`-1`, `0`, `1`) differs. -/
def signChanges : List ℤ → ℕ
  | [] => 0
  | x :: t => signChangesAux x t

/-- `AudioCapture._is_actual_speech(frames)`, lines 142-186: speech-likeness of
a finalized frame list.  Mirrors the source decision for decision: empty frame
list and empty concatenation return `False`; `volume < speech_threshold`
returns `False` early; finally
`is_speech = volume > 150 and dynamic_range > 1000 and 0.01 < zcr < 0.3`,
where the dynamic range is computed by int16 subtraction (wrapping, as numpy
does) and `zcr = zero_crossings / len(audio_array)`.  The `try/except` that
returns `False` on an exception makes the Python function total; the embedding
is a total function. -/
def is_actual_speech (frames : List (List ℤ)) : Bool :=
  if frames = [] then false
  else
    let a := frames.flatten
    if a.length = 0 then false
    else
      let volSq := chunkVolumeSq a
      if volSq < speech_threshold ^ 2 then false
      else
        let dynamic_range := toInt16 (listMax a - listMin a)
        let zcr : ℚ := (signChanges a : ℚ) / (a.length : ℚ)
        decide (speech_threshold ^ 2 < volSq) &&
          (decide (1000 < dynamic_range) &&
            (decide ((1 : ℚ)/100 < zcr) && decide (zcr < 3/10)))

/-- The spec's segmentation states (`SegmentationState` in section 3 of the
design document). -/
inductive SegState
  | Idle
  | ActiveSpeech
  | TrailingSilence
deriving DecidableEq

/-- The mutable state of the `_manual_recording` loop: the local variables
`frames`, `silence_start`, `recording_start`, together with the store field
`self.latest_audio_file` (modelled by the PCM payload the saved WAV file would
contain, i.e. the concatenation `b''.join(frames)`) and the observation trace `published` of all
payloads ever handed to `_save_audio_chunk`. -/
structure MState where
  frames : List (List ℤ)
  silence_start : Option ℚ
  recording_start : Option ℚ
  latest_audio_file : Option (List ℤ)
  published : List (List ℤ)
deriving DecidableEq

/-- One iteration of the `while` body of `_manual_recording` (lines 97-137)
after a successful `stream.read` returning `data` at wall-clock time `t`:
append the chunk to `frames`, classify its volume, and either mark voice
activity, start the silence timer, or finalize.  Finalization saves via
`_save_audio_chunk(frames)` (modelled on its success path: the store is
replaced by the concatenated payload) exactly when the duration and
speech-likeness checks pass, and resets `frames`/timers regardless. -/
def step (s : MState) (data : List ℤ) (t : ℚ) : MState :=
  let frames := s.frames ++ [data]
  if silence_threshold ^ 2 < chunkVolumeSq data then
    { s with
        frames := frames
        recording_start := match s.recording_start with
          | none => some t
          | some r => some r
        silence_start := none }
  else
    match s.silence_start with
    | none => { s with frames := frames, silence_start := some t }
    | some ss =>
      match s.recording_start with
      | some r =>
        if r ≠ 0 ∧ silence_duration < t - ss then
          if min_recording_duration ≤ t - r then
            if is_actual_speech frames then
              { frames := []
                silence_start := none
                recording_start := none
                latest_audio_file := some frames.flatten
                published := s.published ++ [frames.flatten] }
            else
              { frames := []
                silence_start := none
                recording_start := none
                latest_audio_file := s.latest_audio_file
                published := s.published }
          else
            { frames := []
              silence_start := none
              recording_start := none
              latest_audio_file := s.latest_audio_file
              published := s.published }
        else { s with frames := frames }
      | none => { s with frames := frames }

/-- One event observed by the capture loop: either a successful chunk read
(`data` at time `t`) or an exception raised inside the `try` block. -/
inductive ReadEvent
  | chunk (data : List ℤ) (t : ℚ)
  | readError
deriving DecidableEq

/-- The `while self.is_recording` loop of `_manual_recording` over a finite
event sequence: a successful read is processed by `step`; an exception is
caught by the `except` clause on lines 138-140, which prints and `break`s,
terminating the loop with the state as it was. -/
def run : MState → List ReadEvent → MState
  | s, [] => s
  | s, ReadEvent.chunk d t :: rest => run (step s d t) rest
  | s, ReadEvent.readError :: _ => s

/-- The state at loop entry: `frames = []`, `silence_start = None`,
`recording_start = None` (lines 93-95), and `self.latest_audio_file = None`
(line 24). -/
def initState : MState :=
  { frames := []
    silence_start := none
    recording_start := none
    latest_audio_file := none
    published := [] }

/-- `AudioCapture.get_latest_audio_file` (lines 218-221): returns
`self.latest_audio_file` under the lock (the lock is immaterial in this
single-threaded model). -/
def get_latest_audio_file (s : MState) : Option (List ℤ) :=
  s.latest_audio_file

/-- The spec's segmentation state read off the loop variables:
`recording_start = None` is Idle, otherwise an empty silence timer is
ActiveSpeech and a running one is TrailingSilence. -/
def stateOf (s : MState) : SegState :=
  match s.recording_start with
  | none => SegState.Idle
  | some _ =>
    match s.silence_start with
    | none => SegState.ActiveSpeech
    | some _ => SegState.TrailingSilence

/-- `AudioCapture._save_audio_chunk` (lines 188-216) at the file level.
`files` is the set of live files on disk, `latest` is
`self.latest_audio_file`, `filename` the fresh `temp_audio_<ts>.wav` name and
`writeOk` whether the `wave.open(...)`/`writeframes` block succeeds.  Under
the lock: if `latest` is truthy its file is unlinked (errors ignored); then
the new file is written; only on success is `self.latest_audio_file` updated
(a write failure is caught by the `except` on line 215, leaving the field as
it was). -/
def save_audio_chunk (files : List String) (latest : Option String)
    (filename : String) (writeOk : Bool) : List String × Option String :=
  let files1 := match latest with
    | some f => if f = "" then files else files.erase f
    | none => files
  if writeOk then (filename :: files1, some filename) else (files1, latest)

/-- `AudioCapture.clear_latest_audio` (lines 223-232): under the lock, if
`self.latest_audio_file` is truthy, unlink it (errors ignored) and set the
field to `None`. -/
def clear_latest_audio (files : List String) (latest : Option String) :
    List String × Option String :=
  match latest with
  | some f => if f = "" then (files, some f) else (files.erase f, none)
  | none => (files, none)

/-- The store-consistency property of spec section 4.3: whatever file the
store references is live on disk. -/
def storeLive (st : List String × Option String) : Prop :=
  ∀ f, st.2 = some f → f ∈ st.1

/-- Duration, in seconds, of a saved utterance: payload length over the sample
rate (mono 16-bit PCM at 16 kHz). -/
def utteranceDuration (u : List ℤ) : ℚ :=
  (u.length : ℚ) / sample_rate

/-! ### Concrete test signals

The spec's concrete scenarios fix chunks of 1024 samples at 16 kHz (64 ms per
chunk).  `loudChunk` realizes a "speech" chunk from the scenarios: RMS volume
exactly 500 (sum of squares 256000000 over 1024 samples), dynamic range 4000
(max 3000, min -1000) and 102 adjacent sign changes, i.e. zero-crossing rate
102/1024 ≈ 0.0996 ≈ 0.1 (exactly 0.1 is not attainable over 1024 samples).
`quietChunk` realizes a "silence" chunk: RMS volume exactly 10 and a tiny
dynamic range of 20. -/

/-- `n` repetitions of the two-sample pattern `[1000, -1000]`. -/
def altPM : ℕ → List ℤ
  | 0 => []
  | n + 1 => 1000 :: -1000 :: altPM n

/-- A 1024-sample chunk of RMS volume exactly 500, dynamic range 4000 and 102
sign changes (see section header). -/
def loudChunk : List ℤ :=
  altPM 51 ++ [3000] ++ List.replicate 400 500 ++ List.replicate 493 300 ++
    [600] ++ List.replicate 27 100

/-- A 1024-sample chunk of RMS volume exactly 10 and dynamic range 20. -/
def quietChunk : List ℤ :=
  List.replicate 512 10 ++ List.replicate 512 (-10)

/-- Wall-clock time right after the `i`-th chunk read (0-based): each blocking
read of 1024 samples at 16 kHz takes 64 ms = 8/125 s, so chunk `i` is
processed at `(i+1) * 8/125` seconds after the loop starts. -/
def chunkTime (i : ℕ) : ℚ :=
  (i + 1) * (8/125)

/-- `n` consecutive loud-chunk read events starting at chunk index `i`. -/
def loudEvents (i n : ℕ) : List ReadEvent :=
  (List.range n).map fun k => ReadEvent.chunk loudChunk (chunkTime (i + k))

/-- `n` consecutive quiet-chunk read events starting at chunk index `i`. -/
def quietEvents (i n : ℕ) : List ReadEvent :=
  (List.range n).map fun k => ReadEvent.chunk quietChunk (chunkTime (i + k))

/-- The spec's short-utterance scenario: 3 loud chunks (active speech spanning
about 0.19 s, below the 0.5 s minimum) followed by 17 quiet chunks. -/
def c2events : List ReadEvent :=
  (List.range 20).map fun i =>
    ReadEvent.chunk (if i < 3 then loudChunk else quietChunk) (chunkTime i)

/-- The spec's main scenario: 20 loud chunks (1.28 s of active speech)
followed by 20 quiet chunks (1.28 s of silence). -/
def c5events : List ReadEvent :=
  (List.range 40).map fun i =>
    ReadEvent.chunk (if i < 20 then loudChunk else quietChunk) (chunkTime i)

/-- A 100-sample buffer exhibiting the full int16 dynamic range: samples 32767
and -32768 followed by 49 samples of 1000 and 49 of -1000.  Its RMS volume is
about 4739, its true dynamic range 65535 and its zero-crossing rate 0.03. -/
def bugInput : List ℤ :=
  [32767, -32768] ++ List.replicate 49 1000 ++ List.replicate 49 (-1000)

/-! ### Sums of squares and lengths -/

@[simp] lemma sumsq_nil : sumsq [] = 0 := rfl

@[simp] lemma sumsq_cons (x : ℤ) (l : List ℤ) :
    sumsq (x :: l) = x * x + sumsq l := by
  simp [sumsq]

@[simp] lemma sumsq_append (l1 l2 : List ℤ) :
    sumsq (l1 ++ l2) = sumsq l1 + sumsq l2 := by
  induction l1 with
  | nil => simp
  | cons x t ih => simp [ih]; ring

@[simp] lemma sumsq_replicate (n : ℕ) (a : ℤ) :
    sumsq (List.replicate n a) = n * (a * a) := by
  induction n with
  | zero => simp
  | succ m ih => simp [List.replicate_succ, ih]; ring

@[simp] lemma sumsq_altPM (n : ℕ) : sumsq (altPM n) = n * 2000000 := by
  induction n with
  | zero => simp [altPM]
  | succ m ih => simp [altPM, ih]; ring

@[simp] lemma length_altPM (n : ℕ) : (altPM n).length = 2 * n := by
  induction n with
  | zero => simp [altPM]
  | succ m ih => simp [altPM, ih]; ring

lemma length_loudChunk : loudChunk.length = 1024 := by
  simp [loudChunk]

lemma length_quietChunk : quietChunk.length = 1024 := by
  simp [quietChunk]

lemma sumsq_loudChunk : sumsq loudChunk = 256000000 := by
  simp [loudChunk]

lemma sumsq_quietChunk : sumsq quietChunk = 102400 := by
  simp [quietChunk]

lemma volSq_loudChunk : chunkVolumeSq loudChunk = 250000 := by
  rw [chunkVolumeSq, if_pos (by rw [length_loudChunk]; norm_num),
    sumsq_loudChunk, length_loudChunk]
  norm_num

lemma volSq_quietChunk : chunkVolumeSq quietChunk = 100 := by
  rw [chunkVolumeSq, if_pos (by rw [length_quietChunk]; norm_num),
    sumsq_quietChunk, length_quietChunk]
  norm_num

/-! ### Characterizing `listMax` and `listMin` -/

lemma foldl_max_eq (t : List ℤ) : ∀ (a x : ℤ), a ≤ x → (x = a ∨ x ∈ t) →
    (∀ y ∈ t, y ≤ x) → t.foldl max a = x := by
  induction t with
  | nil =>
    intro a x ha hx _
    rcases hx with h | h
    · simpa using h.symm
    · simp at h
  | cons b t ih =>
    intro a x ha hx hub
    rw [List.foldl_cons]
    refine ih (max a b) x (max_le ha (hub b (by simp))) ?_ fun y hy => hub y (by simp [hy])
    rcases hx with h | h
    · left
      have hb : b ≤ a := h ▸ hub b (by simp)
      simp [max_eq_left hb, h]
    · rcases List.mem_cons.1 h with h | h
      · left
        simp [max_eq_right (h ▸ ha), h]
      · right
        exact h

lemma foldl_min_eq (t : List ℤ) : ∀ (a x : ℤ), x ≤ a → (x = a ∨ x ∈ t) →
    (∀ y ∈ t, x ≤ y) → t.foldl min a = x := by
  induction t with
  | nil =>
    intro a x ha hx _
    rcases hx with h | h
    · simpa using h.symm
    · simp at h
  | cons b t ih =>
    intro a x ha hx hlb
    rw [List.foldl_cons]
    refine ih (min a b) x (le_min ha (hlb b (by simp))) ?_ fun y hy => hlb y (by simp [hy])
    rcases hx with h | h
    · left
      have hb : a ≤ b := h ▸ hlb b (by simp)
      simp [min_eq_left hb, h]
    · rcases List.mem_cons.1 h with h | h
      · left
        simp [min_eq_right (h ▸ ha), h]
      · right
        exact h

lemma listMax_eq (l : List ℤ) (x : ℤ) (hmem : x ∈ l) (hub : ∀ y ∈ l, y ≤ x) :
    listMax l = x := by
  cases l with
  | nil => simp at hmem
  | cons a t =>
    rw [listMax]
    refine foldl_max_eq t a x (hub a (by simp)) ?_ fun y hy => hub y (by simp [hy])
    exact List.mem_cons.1 hmem

lemma listMin_eq (l : List ℤ) (x : ℤ) (hmem : x ∈ l) (hlb : ∀ y ∈ l, x ≤ y) :
    listMin l = x := by
  cases l with
  | nil => simp at hmem
  | cons a t =>
    rw [listMin]
    refine foldl_min_eq t a x (hlb a (by simp)) ?_ fun y hy => hlb y (by simp [hy])
    exact List.mem_cons.1 hmem

/-! ### Membership bounds for the concrete chunks -/

lemma mem_altPM {y : ℤ} {n : ℕ} (h : y ∈ altPM n) : y = 1000 ∨ y = -1000 := by
  induction n with
  | zero => simp [altPM] at h
  | succ m ih =>
    rw [altPM] at h
    rcases List.mem_cons.1 h with h | h
    · left; exact h
    rcases List.mem_cons.1 h with h | h
    · right; exact h
    · exact ih h

lemma mem_loudChunk_bounds {y : ℤ} (h : y ∈ loudChunk) : -1000 ≤ y ∧ y ≤ 3000 := by
  simp only [loudChunk, List.mem_append, List.mem_singleton, List.mem_replicate] at h
  rcases h with ((((h | h) | h) | h) | h) | h
  · rcases mem_altPM h with h | h <;> simp [h]
  · simp [h]
  · simp [h.2]
  · simp [h.2]
  · simp [h]
  · simp [h.2]

lemma mem_quietChunk_bounds {y : ℤ} (h : y ∈ quietChunk) : -10 ≤ y ∧ y ≤ 10 := by
  simp only [quietChunk, List.mem_append, List.mem_replicate] at h
  rcases h with h | h <;> simp [h.2]

lemma mem_loudChunk_3000 : (3000 : ℤ) ∈ loudChunk := by
  rw [loudChunk]
  exact List.mem_append_left _ (List.mem_append_left _ (List.mem_append_left _
    (List.mem_append_left _ (List.mem_append_right _ (List.mem_singleton.2 rfl)))))

lemma mem_loudChunk_neg1000 : (-1000 : ℤ) ∈ loudChunk := by
  have h51 : (-1000 : ℤ) ∈ altPM 51 := by
    rw [show (51 : ℕ) = 50 + 1 from rfl, altPM]
    exact List.mem_cons_of_mem _ (List.mem_cons_self _ _)
  rw [loudChunk]
  exact List.mem_append_left _ (List.mem_append_left _ (List.mem_append_left _
    (List.mem_append_left _ (List.mem_append_left _ h51))))

/-! ### Counting sign changes compositionally -/

@[simp] lemma signChangesAux_nil (p : ℤ) : signChangesAux p [] = 0 := rfl

lemma signChangesAux_cons (p x : ℤ) (t : List ℤ) :
    signChangesAux p (x :: t) =
      (if Int.sign p ≠ Int.sign x then 1 else 0) + signChangesAux x t := rfl

lemma signChangesAux_append (l1 : List ℤ) : ∀ (p : ℤ) (l2 : List ℤ),
    signChangesAux p (l1 ++ l2) =
      signChangesAux p l1 + signChangesAux (l1.getLastD p) l2 := by
  induction l1 with
  | nil => simp
  | cons x t ih =>
    intro p l2
    rw [List.cons_append, signChangesAux_cons, ih x l2, signChangesAux_cons,
      List.getLastD_cons]
    ring

lemma getLastD_replicate (a p : ℤ) : ∀ n : ℕ,
    (List.replicate n a).getLastD p = if n = 0 then p else a := by
  intro n
  induction n generalizing p with
  | zero => simp
  | succ m ih =>
    rw [List.replicate_succ, List.getLastD_cons, ih a]
    cases m <;> simp

lemma signChangesAux_replicate (a : ℤ) : ∀ (n : ℕ) (p : ℤ),
    signChangesAux p (List.replicate n a) =
      if n = 0 then 0 else if Int.sign p ≠ Int.sign a then 1 else 0 := by
  intro n
  induction n with
  | zero => simp
  | succ m ih =>
    intro p
    rw [List.replicate_succ, signChangesAux_cons, ih a]
    cases m <;> simp

lemma getLastD_altPM (p : ℤ) : ∀ n : ℕ,
    (altPM (n + 1)).getLastD p = -1000 := by
  intro n
  induction n generalizing p with
  | zero => rfl
  | succ m ih =>
    rw [altPM, List.getLastD_cons, List.getLastD_cons]
    exact ih (-1000)

lemma signChangesAux_altPM_neg : ∀ (n : ℕ) (p : ℤ), Int.sign p = -1 →
    signChangesAux p (altPM n) = 2 * n := by
  intro n
  induction n with
  | zero => simp [altPM]
  | succ m ih =>
    intro p hp
    rw [altPM, signChangesAux_cons, signChangesAux_cons, ih (-1000) (by decide)]
    rw [if_pos (by rw [hp]; decide), if_pos (by decide)]
    ring

lemma signChangesAux_altPM_pos (n : ℕ) (p : ℤ) (hp : Int.sign p = 1) :
    signChangesAux p (altPM (n + 1)) = 2 * n + 1 := by
  rw [altPM, signChangesAux_cons, signChangesAux_cons,
    signChangesAux_altPM_neg n (-1000) (by decide)]
  rw [if_neg (by rw [hp]; decide), if_pos (by decide)]
  ring

lemma getLastD_append (l1 l2 : List ℤ) : ∀ p : ℤ,
    (l1 ++ l2).getLastD p = l2.getLastD (l1.getLastD p) := by
  induction l1 with
  | nil => simp
  | cons x t ih =>
    intro p
    rw [List.cons_append, List.getLastD_cons, ih, List.getLastD_cons]

lemma getLastD_loudChunk (p : ℤ) : loudChunk.getLastD p = 100 := by
  rw [loudChunk]
  rw [getLastD_append, getLastD_append, getLastD_append, getLastD_append,
    getLastD_append, getLastD_replicate]
  simp

lemma getLastD_quietChunk (p : ℤ) : quietChunk.getLastD p = -10 := by
  rw [quietChunk, getLastD_append, getLastD_replicate 10 p 512,
    getLastD_replicate]
  simp

lemma signChangesAux_loudChunk (p : ℤ) (hp : Int.sign p = 1) :
    signChangesAux p loudChunk = 102 := by
  rw [loudChunk, show (51 : ℕ) = 50 + 1 from rfl]
  simp only [signChangesAux_append, getLastD_append, getLastD_altPM,
    getLastD_replicate, signChangesAux_replicate, signChangesAux_cons,
    signChangesAux_nil]
  rw [signChangesAux_altPM_pos 50 p hp]
  norm_num
  decide

lemma signChangesAux_quietChunk_pos (p : ℤ) (hp : Int.sign p = 1) :
    signChangesAux p quietChunk = 1 := by
  rw [quietChunk]
  simp only [signChangesAux_append, getLastD_replicate, signChangesAux_replicate]
  rw [hp]
  norm_num
  decide

lemma signChangesAux_quietChunk_neg (p : ℤ) (hp : Int.sign p = -1) :
    signChangesAux p quietChunk = 2 := by
  rw [quietChunk]
  simp only [signChangesAux_append, getLastD_replicate, signChangesAux_replicate]
  rw [hp]
  norm_num
  decide

/-! ### Statistics of the finalized buffers

At finalization the frame list is `List.replicate k loudChunk ++
List.replicate m quietChunk`; the saved payload is its concatenation.  The
following lemmas give the payload's length, sum of squares, extrema and sign
changes as functions of `k` and `m`. -/

lemma flatten_replicate_cons (n : ℕ) (c : List ℤ) :
    (List.replicate (n + 1) c).flatten = c ++ (List.replicate n c).flatten := by
  rw [List.replicate_succ, List.flatten_cons]

lemma length_flatten_replicate (c : List ℤ) : ∀ n : ℕ,
    (List.replicate n c).flatten.length = n * c.length := by
  intro n
  induction n with
  | zero => simp
  | succ m ih =>
    rw [flatten_replicate_cons, List.length_append, ih]
    ring

lemma sumsq_flatten_replicate (c : List ℤ) : ∀ n : ℕ,
    sumsq (List.replicate n c).flatten = n * sumsq c := by
  intro n
  induction n with
  | zero => simp
  | succ m ih =>
    rw [flatten_replicate_cons, sumsq_append, ih]
    push_cast
    ring

lemma getLastD_flatten_replicate_loud (p : ℤ) : ∀ n : ℕ,
    (List.replicate (n + 1) loudChunk).flatten.getLastD p = 100 := by
  intro n
  induction n generalizing p with
  | zero =>
    rw [flatten_replicate_cons, List.replicate_zero, List.flatten_nil,
      List.append_nil, getLastD_loudChunk]
  | succ m ih =>
    rw [flatten_replicate_cons, getLastD_append]
    exact ih (loudChunk.getLastD p)

lemma signChangesAux_flatten_loud (p : ℤ) (hp : Int.sign p = 1) : ∀ n : ℕ,
    signChangesAux p (List.replicate n loudChunk).flatten = 102 * n := by
  intro n
  induction n generalizing p hp with
  | zero => simp
  | succ m ih =>
    rw [flatten_replicate_cons, signChangesAux_append,
      signChangesAux_loudChunk p hp, getLastD_loudChunk,
      ih 100 (by decide)]
    ring

lemma signChangesAux_flatten_quiet_neg (p : ℤ) (hp : Int.sign p = -1) :
    ∀ m : ℕ, signChangesAux p (List.replicate m quietChunk).flatten = 2 * m := by
  intro m
  induction m generalizing p hp with
  | zero => simp
  | succ j ih =>
    rw [flatten_replicate_cons, signChangesAux_append,
      signChangesAux_quietChunk_neg p hp, getLastD_quietChunk,
      ih (-10) (by decide)]
    ring

lemma signChangesAux_flatten_quiet_pos (p : ℤ) (hp : Int.sign p = 1) (m : ℕ) :
    signChangesAux p (List.replicate (m + 1) quietChunk).flatten = 2 * m + 1 := by
  rw [flatten_replicate_cons, signChangesAux_append,
    signChangesAux_quietChunk_pos p hp, getLastD_quietChunk,
    signChangesAux_flatten_quiet_neg (-10) (by decide) m]
  ring

/-- The buffer at finalization: `k` loud chunks then `m` quiet chunks. -/
def bufferLQ (k m : ℕ) : List ℤ :=
  (List.replicate k loudChunk ++ List.replicate m quietChunk).flatten

lemma length_bufferLQ (k m : ℕ) : (bufferLQ k m).length = (k + m) * 1024 := by
  rw [bufferLQ, List.flatten_append, List.length_append,
    length_flatten_replicate, length_flatten_replicate, length_loudChunk,
    length_quietChunk]
  ring

lemma sumsq_bufferLQ (k m : ℕ) :
    sumsq (bufferLQ k m) = k * 256000000 + m * 102400 := by
  rw [bufferLQ, List.flatten_append, sumsq_append, sumsq_flatten_replicate,
    sumsq_flatten_replicate, sumsq_loudChunk, sumsq_quietChunk]

lemma mem_bufferLQ_bounds (k m : ℕ) {y : ℤ} (h : y ∈ bufferLQ k m) :
    -1000 ≤ y ∧ y ≤ 3000 := by
  rw [bufferLQ] at h
  rcases List.mem_flatten.1 h with ⟨c, hc, hyc⟩
  rcases List.mem_append.1 hc with hc | hc
  · rw [(List.mem_replicate.1 hc).2] at hyc
    exact mem_loudChunk_bounds hyc
  · rw [(List.mem_replicate.1 hc).2] at hyc
    have := mem_quietChunk_bounds hyc
    constructor <;> omega

lemma listMax_bufferLQ (k m : ℕ) (hk : k ≠ 0) : listMax (bufferLQ k m) = 3000 := by
  refine listMax_eq _ _ ?_ fun y hy => (mem_bufferLQ_bounds k m hy).2
  rw [bufferLQ]
  exact List.mem_flatten.2 ⟨loudChunk,
    List.mem_append.2 (Or.inl (List.mem_replicate.2 ⟨hk, rfl⟩)),
    mem_loudChunk_3000⟩

lemma listMin_bufferLQ (k m : ℕ) (hk : k ≠ 0) : listMin (bufferLQ k m) = -1000 := by
  refine listMin_eq _ _ ?_ fun y hy => (mem_bufferLQ_bounds k m hy).1
  rw [bufferLQ]
  exact List.mem_flatten.2 ⟨loudChunk,
    List.mem_append.2 (Or.inl (List.mem_replicate.2 ⟨hk, rfl⟩)),
    mem_loudChunk_neg1000⟩

@[simp] lemma signChanges_cons (x : ℤ) (t : List ℤ) :
    signChanges (x :: t) = signChangesAux x t := rfl

lemma signChanges_loud_append (r : List ℤ) :
    signChanges (loudChunk ++ r) = signChangesAux 1000 (loudChunk ++ r) := by
  rw [loudChunk, show (51 : ℕ) = 50 + 1 from rfl, altPM]
  simp only [List.cons_append, signChanges_cons, signChangesAux_cons]
  norm_num

lemma signChanges_bufferLQ (k m : ℕ) :
    signChanges (bufferLQ (k + 1) (m + 1)) = 102 * (k + 1) + 2 * m + 1 := by
  have hflat : bufferLQ (k + 1) (m + 1) =
      loudChunk ++ ((List.replicate k loudChunk).flatten ++
        (List.replicate (m + 1) quietChunk).flatten) := by
    rw [bufferLQ, List.flatten_append, flatten_replicate_cons, List.append_assoc]
  rw [hflat, signChanges_loud_append]
  rw [signChangesAux_append, signChangesAux_loudChunk 1000 (by decide),
    getLastD_loudChunk, signChangesAux_append,
    signChangesAux_flatten_loud 100 (by decide) k]
  rcases Nat.eq_zero_or_pos k with hk | hk
  · subst hk
    rw [List.replicate_zero, List.flatten_nil]
    simp only [List.getLastD_nil]
    rw [signChangesAux_flatten_quiet_pos 100 (by decide) m]
    ring
  · obtain ⟨j, rfl⟩ := Nat.exists_eq_succ_of_ne_zero hk.ne'
    rw [getLastD_flatten_replicate_loud 100 j,
      signChangesAux_flatten_quiet_pos 100 (by decide) m]
    ring

/-! ### Evaluating the speech-likeness check -/

/-- On a nonempty frame list with a nonempty concatenation, the early
`volume < speech_threshold` return of `_is_actual_speech` coincides with the
failure of the `volume > speech_threshold` conjunct, so the verdict is exactly
the three-feature conjunction. -/
lemma is_actual_speech_eval (frames : List (List ℤ)) (hne : frames ≠ [])
    (hlen : frames.flatten.length ≠ 0) :
    is_actual_speech frames =
      (decide (speech_threshold ^ 2 < chunkVolumeSq frames.flatten) &&
        (decide (1000 < toInt16 (listMax frames.flatten - listMin frames.flatten)) &&
          (decide ((1 : ℚ)/100 <
              (signChanges frames.flatten : ℚ) / (frames.flatten.length : ℚ)) &&
            decide ((signChanges frames.flatten : ℚ) /
              (frames.flatten.length : ℚ) < 3/10)))) := by
  rw [is_actual_speech]
  rw [if_neg hne, if_neg hlen]
  rcases lt_or_ge (chunkVolumeSq frames.flatten) (speech_threshold ^ 2) with h | h
  · rw [if_pos h, decide_eq_false (not_lt.2 h.le), Bool.false_and]
  · rw [if_neg (not_lt.2 h)]

lemma volSq_bufferLQ (k m : ℕ) (h : k + m ≠ 0) :
    chunkVolumeSq (bufferLQ k m) =
      ((k : ℚ) * 256000000 + m * 102400) / ((k + m) * 1024) := by
  rw [chunkVolumeSq, if_pos (by rw [length_bufferLQ]; positivity),
    sumsq_bufferLQ, length_bufferLQ]
  push_cast
  ring_nf

lemma flatten_LQ (k m : ℕ) :
    (List.replicate k loudChunk ++ List.replicate m quietChunk).flatten =
      bufferLQ k m := rfl

lemma is_actual_speech_c2frames :
    is_actual_speech
      (List.replicate 3 loudChunk ++ List.replicate 17 quietChunk) = true := by
  have hsc : signChanges (bufferLQ 3 17) = 339 := by
    have h := signChanges_bufferLQ 2 16
    norm_num at h
    exact h
  rw [is_actual_speech_eval _ (by simp)
      (by rw [flatten_LQ, length_bufferLQ]; norm_num)]
  rw [flatten_LQ, volSq_bufferLQ 3 17 (by norm_num), listMax_bufferLQ 3 17
      (by norm_num), listMin_bufferLQ 3 17 (by norm_num), hsc, length_bufferLQ]
  rw [show toInt16 (3000 - -1000) = 4000 from by decide]
  simp only [Bool.and_eq_true, decide_eq_true_eq, speech_threshold]
  refine ⟨by norm_num, by norm_num, by norm_num, by norm_num⟩

lemma is_actual_speech_c5frames :
    is_actual_speech
      (List.replicate 20 loudChunk ++ List.replicate 17 quietChunk) = true := by
  have hsc : signChanges (bufferLQ 20 17) = 2073 := by
    have h := signChanges_bufferLQ 19 16
    norm_num at h
    exact h
  rw [is_actual_speech_eval _ (by simp)
      (by rw [flatten_LQ, length_bufferLQ]; norm_num)]
  rw [flatten_LQ, volSq_bufferLQ 20 17 (by norm_num), listMax_bufferLQ 20 17
      (by norm_num), listMin_bufferLQ 20 17 (by norm_num), hsc, length_bufferLQ]
  rw [show toInt16 (3000 - -1000) = 4000 from by decide]
  simp only [Bool.and_eq_true, decide_eq_true_eq, speech_threshold]
  refine ⟨by norm_num, by norm_num, by norm_num, by norm_num⟩

lemma is_actual_speech_single_quiet : is_actual_speech [quietChunk] = false := by
  rw [is_actual_speech_eval _ (by simp)
      (by simp [length_quietChunk])]
  rw [show ([quietChunk] : List (List ℤ)).flatten = quietChunk from by simp,
    volSq_quietChunk]
  rw [decide_eq_false (by rw [speech_threshold]; norm_num), Bool.false_and]

/-! ### Single-step behaviour of the segmentation loop -/

lemma step_loud_some (fr : List (List ℤ)) (ss : Option ℚ) (r : ℚ)
    (la : Option (List ℤ)) (pu : List (List ℤ)) (t : ℚ) :
    step ⟨fr, ss, some r, la, pu⟩ loudChunk t =
      ⟨fr ++ [loudChunk], none, some r, la, pu⟩ := by
  simp only [step]
  rw [if_pos (by rw [volSq_loudChunk, silence_threshold]; norm_num)]

lemma step_loud_none (fr : List (List ℤ)) (ss : Option ℚ)
    (la : Option (List ℤ)) (pu : List (List ℤ)) (t : ℚ) :
    step ⟨fr, ss, none, la, pu⟩ loudChunk t =
      ⟨fr ++ [loudChunk], none, some t, la, pu⟩ := by
  simp only [step]
  rw [if_pos (by rw [volSq_loudChunk, silence_threshold]; norm_num)]

lemma step_quiet_ssnone (fr : List (List ℤ)) (rs : Option ℚ)
    (la : Option (List ℤ)) (pu : List (List ℤ)) (t : ℚ) :
    step ⟨fr, none, rs, la, pu⟩ quietChunk t =
      ⟨fr ++ [quietChunk], some t, rs, la, pu⟩ := by
  simp only [step]
  rw [if_neg (by rw [volSq_quietChunk, silence_threshold]; norm_num)]

lemma step_quiet_rsnone (fr : List (List ℤ)) (ss : ℚ)
    (la : Option (List ℤ)) (pu : List (List ℤ)) (t : ℚ) :
    step ⟨fr, some ss, none, la, pu⟩ quietChunk t =
      ⟨fr ++ [quietChunk], some ss, none, la, pu⟩ := by
  simp only [step]
  rw [if_neg (by rw [volSq_quietChunk, silence_threshold]; norm_num)]

lemma step_quiet_wait (fr : List (List ℤ)) (ss r : ℚ)
    (la : Option (List ℤ)) (pu : List (List ℤ)) (t : ℚ)
    (h : ¬(r ≠ 0 ∧ silence_duration < t - ss)) :
    step ⟨fr, some ss, some r, la, pu⟩ quietChunk t =
      ⟨fr ++ [quietChunk], some ss, some r, la, pu⟩ := by
  simp only [step]
  rw [if_neg (by rw [volSq_quietChunk, silence_threshold]; norm_num)]
  exact if_neg h

lemma step_quiet_finalize (fr : List (List ℤ)) (ss r : ℚ)
    (la : Option (List ℤ)) (pu : List (List ℤ)) (t : ℚ)
    (h0 : r ≠ 0) (h1 : silence_duration < t - ss)
    (h2 : min_recording_duration ≤ t - r)
    (hsp : is_actual_speech (fr ++ [quietChunk]) = true) :
    step ⟨fr, some ss, some r, la, pu⟩ quietChunk t =
      ⟨[], none, none, some (fr ++ [quietChunk]).flatten,
        pu ++ [(fr ++ [quietChunk]).flatten]⟩ := by
  simp only [step]
  rw [if_neg (by rw [volSq_quietChunk, silence_threshold]; norm_num)]
  rw [if_pos ⟨h0, h1⟩, if_pos h2]
  simp only [hsp, if_true]

/-! ### Runs over event blocks -/

lemma run_nil (s : MState) : run s [] = s := rfl

lemma run_chunk_cons (s : MState) (d : List ℤ) (t : ℚ) (rest : List ReadEvent) :
    run s (ReadEvent.chunk d t :: rest) = run (step s d t) rest := rfl

lemma run_append_chunks (evs1 : List ReadEvent) : ∀ (s : MState)
    (evs2 : List ReadEvent), ReadEvent.readError ∉ evs1 →
    run s (evs1 ++ evs2) = run (run s evs1) evs2 := by
  induction evs1 with
  | nil => intro s evs2 _; rfl
  | cons e t ih =>
    intro s evs2 he
    cases e with
    | chunk d tt =>
      rw [List.cons_append, run_chunk_cons, run_chunk_cons]
      exact ih _ _ fun hmem => he (List.mem_cons_of_mem _ hmem)
    | readError => exact absurd (List.mem_cons_self _ _) he

lemma quietEvents_zero (i : ℕ) : quietEvents i 0 = [] := by
  simp [quietEvents]

lemma quietEvents_succ (i n : ℕ) :
    quietEvents i (n + 1) =
      ReadEvent.chunk quietChunk (chunkTime i) :: quietEvents (i + 1) n := by
  rw [quietEvents, List.range_succ_eq_map, List.map_cons, List.map_map]
  rw [Nat.add_zero, quietEvents]
  refine congrArg _ (List.map_congr_left fun k _ => ?_)
  simp only [Function.comp_apply]
  rw [show i + (k + 1) = i + 1 + k by omega]

lemma loudEvents_zero (i : ℕ) : loudEvents i 0 = [] := by
  simp [loudEvents]

lemma loudEvents_succ (i n : ℕ) :
    loudEvents i (n + 1) =
      ReadEvent.chunk loudChunk (chunkTime i) :: loudEvents (i + 1) n := by
  rw [loudEvents, List.range_succ_eq_map, List.map_cons, List.map_map]
  rw [Nat.add_zero, loudEvents]
  refine congrArg _ (List.map_congr_left fun k _ => ?_)
  simp only [Function.comp_apply]
  rw [show i + (k + 1) = i + 1 + k by omega]

lemma readError_not_mem_quietEvents (i n : ℕ) :
    ReadEvent.readError ∉ quietEvents i n := by
  simp [quietEvents]

lemma readError_not_mem_loudEvents (i n : ℕ) :
    ReadEvent.readError ∉ loudEvents i n := by
  simp [loudEvents]

lemma quietEvents_add (i n m : ℕ) :
    quietEvents i (n + m) = quietEvents i n ++ quietEvents (i + n) m := by
  rw [quietEvents, List.range_add, List.map_append, List.map_map, quietEvents,
    quietEvents]
  refine congrArg _ (List.map_congr_left fun k _ => ?_)
  simp only [Function.comp_apply]
  rw [show i + (n + k) = i + n + k by omega]

lemma run_loud_block (n : ℕ) : ∀ (i : ℕ) (fr : List (List ℤ)) (r : ℚ)
    (la : Option (List ℤ)) (pu : List (List ℤ)),
    run ⟨fr, none, some r, la, pu⟩ (loudEvents i n) =
      ⟨fr ++ List.replicate n loudChunk, none, some r, la, pu⟩ := by
  induction n with
  | zero => intro i fr r la pu; rw [loudEvents_zero, run_nil]; simp
  | succ m ih =>
    intro i fr r la pu
    rw [loudEvents_succ, run_chunk_cons, step_loud_some, ih (i + 1)]
    rw [List.replicate_succ]
    simp

lemma run_quiet_wait_block (n : ℕ) : ∀ (i : ℕ) (fr : List (List ℤ)) (ss r : ℚ)
    (la : Option (List ℤ)) (pu : List (List ℤ)),
    (∀ k, k < n → chunkTime (i + k) - ss ≤ silence_duration) →
    run ⟨fr, some ss, some r, la, pu⟩ (quietEvents i n) =
      ⟨fr ++ List.replicate n quietChunk, some ss, some r, la, pu⟩ := by
  induction n with
  | zero => intro i fr ss r la pu _; rw [quietEvents_zero, run_nil]; simp
  | succ m ih =>
    intro i fr ss r la pu hno
    rw [quietEvents_succ, run_chunk_cons, step_quiet_wait _ _ _ _ _ _
        (fun hc => absurd hc.2 (not_lt.2 (by simpa using hno 0 (by omega))))]
    rw [ih (i + 1) _ ss r la pu (fun k hk => by
      have := hno (k + 1) (by omega)
      rwa [show i + 1 + k = i + (k + 1) by omega])]
    rw [List.replicate_succ]
    simp

lemma run_quiet_rsnone_block (n : ℕ) : ∀ (i : ℕ) (fr : List (List ℤ)) (ss : ℚ)
    (la : Option (List ℤ)) (pu : List (List ℤ)),
    run ⟨fr, some ss, none, la, pu⟩ (quietEvents i n) =
      ⟨fr ++ List.replicate n quietChunk, some ss, none, la, pu⟩ := by
  induction n with
  | zero => intro i fr ss la pu; rw [quietEvents_zero, run_nil]; simp
  | succ m ih =>
    intro i fr ss la pu
    rw [quietEvents_succ, run_chunk_cons, step_quiet_rsnone, ih (i + 1)]
    rw [List.replicate_succ]
    simp

/-! ### Decomposing the scenario event lists into blocks -/

lemma c2events_decomp : c2events = loudEvents 0 3 ++ quietEvents 3 17 := by
  rw [c2events, show (20 : ℕ) = 3 + 17 from rfl, List.range_add,
    List.map_append, List.map_map, loudEvents, quietEvents]
  congr 1

lemma c5events_decomp : c5events = loudEvents 0 20 ++ quietEvents 20 20 := by
  rw [c5events, show (40 : ℕ) = 20 + 20 from rfl, List.range_add,
    List.map_append, List.map_map, loudEvents, quietEvents]
  congr 1

/-! ### Full runs of the two concrete scenarios -/

lemma chunkTime_sub_le (i k : ℕ) (hk : k ≤ 14) :
    chunkTime (i + 1 + k) - chunkTime i ≤ silence_duration := by
  rw [chunkTime, chunkTime, silence_duration]
  have hkq : (k : ℚ) ≤ 14 := by exact_mod_cast hk
  push_cast
  linarith

lemma chunkTime_ne_zero (i : ℕ) : chunkTime i ≠ 0 := by
  rw [chunkTime]
  positivity

/-- The complete run of the short-utterance scenario: 3 loud chunks then 17
quiet chunks.  Finalization fires at chunk 19 and, because the duration test
measures from `recording_start` (0.064 s) to the finalization time (1.28 s),
the 0.5 s minimum passes even though active speech lasted only about 0.19 s;
the buffer is speech-like, so the 20-chunk payload is published. -/
lemma run_c2 : run initState c2events =
    ⟨[], none, none, some (bufferLQ 3 17), [bufferLQ 3 17]⟩ := by
  rw [c2events_decomp,
    run_append_chunks _ _ _ (readError_not_mem_loudEvents 0 3)]
  have h1 : run initState (loudEvents 0 3) =
      ⟨List.replicate 3 loudChunk, none, some (chunkTime 0), none, []⟩ := by
    rw [show loudEvents 0 3 =
          ReadEvent.chunk loudChunk (chunkTime 0) :: loudEvents 1 2 from by
        have h := loudEvents_succ 0 2
        norm_num at h
        exact h,
      run_chunk_cons,
      show initState = (⟨[], none, none, none, []⟩ : MState) from rfl,
      step_loud_none, run_loud_block 2 1]
    simp [show (3 : ℕ) = 2 + 1 from rfl, List.replicate_succ]
  rw [h1,
    show quietEvents 3 17 = quietEvents 3 1 ++ quietEvents 4 16 from by
      have h := quietEvents_add 3 1 16
      norm_num at h
      exact h,
    run_append_chunks _ _ _ (readError_not_mem_quietEvents 3 1)]
  rw [show quietEvents 3 1 = [ReadEvent.chunk quietChunk (chunkTime 3)] from by
      rw [show (1 : ℕ) = 0 + 1 from rfl, quietEvents_succ, quietEvents_zero]]
  rw [run_chunk_cons, step_quiet_ssnone, run_nil]
  rw [show quietEvents 4 16 = quietEvents 4 15 ++ quietEvents 19 1 from by
      have h := quietEvents_add 4 15 1
      norm_num at h
      exact h,
    run_append_chunks _ _ _ (readError_not_mem_quietEvents 4 15)]
  rw [run_quiet_wait_block 15 4 _ _ _ _ _
      (fun k hk => chunkTime_sub_le 3 k (by omega))]
  rw [show quietEvents 19 1 = [ReadEvent.chunk quietChunk (chunkTime 19)] from by
      rw [show (1 : ℕ) = 0 + 1 from rfl, quietEvents_succ, quietEvents_zero]]
  rw [run_chunk_cons]
  have hfr : (List.replicate 3 loudChunk ++ [quietChunk]) ++
      List.replicate 15 quietChunk ++ [quietChunk] =
      List.replicate 3 loudChunk ++ List.replicate 17 quietChunk := by
    simp [show (17 : ℕ) = 16 + 1 from rfl, show (16 : ℕ) = 1 + 15 from rfl,
      List.replicate_succ', List.replicate_succ, List.replicate_add]
  rw [step_quiet_finalize _ _ _ _ _ _ (chunkTime_ne_zero 0)
      (by rw [chunkTime, chunkTime, silence_duration]; norm_num)
      (by rw [chunkTime, chunkTime, min_recording_duration]; norm_num)
      (by rw [hfr]; exact is_actual_speech_c2frames)]
  rw [run_nil, hfr, flatten_LQ]
  simp

/-- The complete run of the main scenario: 20 loud chunks then 20 quiet
chunks.  Finalization fires at chunk 36 with a 37-chunk payload (the 20
active-speech chunks plus 17 trailing-silence chunks, 2.368 s of audio); the
remaining 3 quiet chunks accumulate in a fresh buffer with the machine idle. -/
lemma run_c5 : run initState c5events =
    ⟨List.replicate 3 quietChunk, some (chunkTime 37), none,
      some (bufferLQ 20 17), [bufferLQ 20 17]⟩ := by
  rw [c5events_decomp,
    run_append_chunks _ _ _ (readError_not_mem_loudEvents 0 20)]
  have h1 : run initState (loudEvents 0 20) =
      ⟨List.replicate 20 loudChunk, none, some (chunkTime 0), none, []⟩ := by
    rw [show loudEvents 0 20 =
          ReadEvent.chunk loudChunk (chunkTime 0) :: loudEvents 1 19 from by
        have h := loudEvents_succ 0 19
        norm_num at h
        exact h,
      run_chunk_cons,
      show initState = (⟨[], none, none, none, []⟩ : MState) from rfl,
      step_loud_none, run_loud_block 19 1]
    simp [show (20 : ℕ) = 19 + 1 from rfl, List.replicate_succ]
  rw [h1,
    show quietEvents 20 20 = quietEvents 20 1 ++ quietEvents 21 19 from by
      have h := quietEvents_add 20 1 19
      norm_num at h
      exact h,
    run_append_chunks _ _ _ (readError_not_mem_quietEvents 20 1)]
  rw [show quietEvents 20 1 = [ReadEvent.chunk quietChunk (chunkTime 20)] from by
      rw [show (1 : ℕ) = 0 + 1 from rfl, quietEvents_succ, quietEvents_zero]]
  rw [run_chunk_cons, step_quiet_ssnone, run_nil]
  rw [show quietEvents 21 19 = quietEvents 21 15 ++ quietEvents 36 4 from by
      have h := quietEvents_add 21 15 4
      norm_num at h
      exact h,
    run_append_chunks _ _ _ (readError_not_mem_quietEvents 21 15)]
  rw [run_quiet_wait_block 15 21 _ _ _ _ _
      (fun k hk => chunkTime_sub_le 20 k (by omega))]
  rw [show quietEvents 36 4 = quietEvents 36 1 ++ quietEvents 37 3 from by
      have h := quietEvents_add 36 1 3
      norm_num at h
      exact h,
    run_append_chunks _ _ _ (readError_not_mem_quietEvents 36 1)]
  rw [show quietEvents 36 1 = [ReadEvent.chunk quietChunk (chunkTime 36)] from by
      rw [show (1 : ℕ) = 0 + 1 from rfl, quietEvents_succ, quietEvents_zero]]
  rw [run_chunk_cons]
  have hfr : (List.replicate 20 loudChunk ++ [quietChunk]) ++
      List.replicate 15 quietChunk ++ [quietChunk] =
      List.replicate 20 loudChunk ++ List.replicate 17 quietChunk := by
    simp [show (17 : ℕ) = 16 + 1 from rfl, show (16 : ℕ) = 1 + 15 from rfl,
      List.replicate_succ', List.replicate_succ, List.replicate_add]
  rw [step_quiet_finalize _ _ _ _ _ _ (chunkTime_ne_zero 0)
      (by rw [chunkTime, chunkTime, silence_duration]; norm_num)
      (by rw [chunkTime, chunkTime, min_recording_duration]; norm_num)
      (by rw [hfr]; exact is_actual_speech_c5frames)]
  rw [run_nil, hfr, flatten_LQ]
  rw [show quietEvents 37 3 = quietEvents 37 1 ++ quietEvents 38 2 from by
      have h := quietEvents_add 37 1 2
      norm_num at h
      exact h,
    run_append_chunks _ _ _ (readError_not_mem_quietEvents 37 1)]
  rw [show quietEvents 37 1 = [ReadEvent.chunk quietChunk (chunkTime 37)] from by
      rw [show (1 : ℕ) = 0 + 1 from rfl, quietEvents_succ, quietEvents_zero]]
  rw [run_chunk_cons, step_quiet_ssnone, run_nil, run_quiet_rsnone_block 2 38]
  simp [show (3 : ℕ) = 2 + 1 from rfl, List.replicate_succ]

/-! ### Statistics of the wraparound input -/

lemma length_bugInput : bugInput.length = 100 := by
  simp [bugInput]

lemma sumsq_bugInput : sumsq bugInput = 2245418113 := by
  simp [bugInput]

lemma volSq_bugInput : chunkVolumeSq bugInput = 2245418113/100 := by
  rw [chunkVolumeSq, if_pos (by rw [length_bugInput]; norm_num), sumsq_bugInput,
    length_bugInput]
  norm_num

lemma listMax_bugInput : listMax bugInput = 32767 := by
  refine listMax_eq _ _ (by simp [bugInput]) fun y hy => ?_
  simp only [bugInput, List.mem_append, List.mem_cons, List.mem_replicate,
    List.not_mem_nil, or_false] at hy
  rcases hy with ((h | h) | h) | h <;> omega

lemma listMin_bugInput : listMin bugInput = -32768 := by
  refine listMin_eq _ _ (by simp [bugInput]) fun y hy => ?_
  simp only [bugInput, List.mem_append, List.mem_cons, List.mem_replicate,
    List.not_mem_nil, or_false] at hy
  rcases hy with ((h | h) | h) | h <;> omega

lemma signChanges_bugInput : signChanges bugInput = 3 := by
  rw [bugInput]
  simp only [List.cons_append, List.nil_append, signChanges_cons,
    signChangesAux_cons, signChangesAux_append, signChangesAux_replicate,
    getLastD_replicate]
  norm_num
  decide

lemma stateOf_idle (s : MState) (h : s.recording_start = none) :
    stateOf s = SegState.Idle := by
  rcases s with ⟨fr, sss, rs, la, pu⟩
  simp only at h
  subst h
  rfl

/-! ### Invariant for all-quiet runs -/

/-- Invariant maintained by all-quiet event sequences: the machine has never
detected voice, the store is empty and nothing was ever published. -/
def quietInv (s : MState) : Prop :=
  s.recording_start = none ∧ s.latest_audio_file = none ∧ s.published = []

lemma step_quiet_inv (s : MState) (d : List ℤ) (t : ℚ) (h : quietInv s)
    (hq : chunkVolumeSq d ≤ silence_threshold ^ 2) : quietInv (step s d t) := by
  rcases s with ⟨fr, sss, rs, la, pu⟩
  obtain ⟨h1, h2, h3⟩ := h
  simp only at h1 h2 h3
  subst h1; subst h2; subst h3
  simp only [step]
  rw [if_neg (not_lt.2 hq)]
  cases sss with
  | none => exact ⟨rfl, rfl, rfl⟩
  | some ss => exact ⟨rfl, rfl, rfl⟩

lemma run_quiet_inv (evs : List ReadEvent) : ∀ s : MState, quietInv s →
    (∀ d t, ReadEvent.chunk d t ∈ evs → chunkVolumeSq d ≤ silence_threshold ^ 2) →
    quietInv (run s evs) := by
  induction evs with
  | nil => intro s h _; exact h
  | cons e rest ih =>
    intro s h hall
    cases e with
    | chunk d t =>
      rw [run_chunk_cons]
      exact ih _ (step_quiet_inv s d t h (hall d t (by simp)))
        fun d2 t2 hm => hall d2 t2 (by simp [hm])
    | readError => exact h

/-! ### Claim theorems -/

/-- C1 (counterexample): the claim that a chunk read failure never terminates
the pull loop — that the faulty chunk is skipped and the loop continues with
the next chunk — is false on the code: after a read exception the `except`
clause of `_manual_recording` executes `break`, so a loud chunk following a
failed read is never processed (under skip semantics it would be appended to
the frame buffer). -/
theorem C1_counterexample :
    run initState [ReadEvent.readError, ReadEvent.chunk loudChunk (chunkTime 0)] ≠
      run initState [ReadEvent.chunk loudChunk (chunkTime 0)] := by
  have hr : run initState [ReadEvent.chunk loudChunk (chunkTime 0)] =
      ⟨[] ++ [loudChunk], none, some (chunkTime 0), none, []⟩ := by
    rw [run_chunk_cons, show initState = (⟨[], none, none, none, []⟩ : MState)
      from rfl, step_loud_none, run_nil]
  intro h
  rw [show run initState
      [ReadEvent.readError, ReadEvent.chunk loudChunk (chunkTime 0)] =
      initState from rfl, hr] at h
  have h2 := congrArg MState.frames h
  simp [initState] at h2

/-- C1 (amended): an exception raised inside the chunk-processing `try` block
terminates the recording loop at once — the faulty chunk and every later chunk
of the event sequence are left unprocessed, the state being whatever it was
before the failing read.  (Device-reported overflows are the one tolerated
condition: reads pass `exception_on_overflow=False`, so an overflow returns
data instead of raising and is processed as an ordinary chunk.) -/
theorem C1_error_terminates_loop (s : MState) (rest : List ReadEvent) :
    run s (ReadEvent.readError :: rest) = s := rfl

/-- C2 (counterexample): the claim that a buffer whose active-speech span is
shorter than `min_recording_duration` (0.5 s) is discarded at finalization is
false on the code: in the scenario with 3 loud chunks (voice from 0.064 s to
the first silent chunk at 0.256 s, about 0.19 s of active speech) followed by
17 quiet chunks, finalization publishes one utterance and fills the store. -/
theorem C2_counterexample :
    (run initState c2events).published.length = 1 ∧
      get_latest_audio_file (run initState c2events) ≠ none := by
  rw [run_c2]
  exact ⟨rfl, by simp [get_latest_audio_file]⟩

/-- C2 (amended): at any finalization step (silence timer exceeded while a
recording is active, with the silence timer started no earlier than the
recording), the duration check `recording_duration >= min_recording_duration`
compares the span from `recording_start` to the current time — a span that
includes the trailing silence and therefore exceeds `silence_duration` (1.0 s)
≥ 0.5 s — so the too-short discard branch is never taken and the outcome is
decided solely by the speech-likeness check: the frame buffer is reset and the
utterance is published iff `_is_actual_speech` accepts it. -/
theorem C2_min_duration_check_vacuous (s : MState) (d : List ℤ) (t r ss : ℚ)
    (hrs : s.recording_start = some r) (hss : s.silence_start = some ss)
    (hr0 : r ≠ 0) (hrss : r ≤ ss)
    (hq : chunkVolumeSq d ≤ silence_threshold ^ 2)
    (hfin : silence_duration < t - ss) :
    (step s d t).frames = [] ∧
    (step s d t).published =
      (if is_actual_speech (s.frames ++ [d])
        then s.published ++ [(s.frames ++ [d]).flatten] else s.published) := by
  rcases s with ⟨fr, sss, rs, la, pu⟩
  simp only at hrs hss
  subst hrs; subst hss
  simp only [step]
  rw [if_neg (not_lt.2 hq), if_pos ⟨hr0, hfin⟩,
    if_pos (by
      rw [min_recording_duration]
      rw [silence_duration] at hfin
      linarith)]
  cases hsp : is_actual_speech (fr ++ [d]) <;> simp [hsp]

/-- C2 (witness): the amended theorem applied at a concrete finalization state
(recording started at 0.064 s, silence since 0.256 s, finalizing quiet chunk
at 1.6 s): the buffer is reset, and since a single quiet chunk is not
speech-like, nothing is published. -/
theorem C2_min_duration_check_vacuous_witness :
    (step ⟨[], some (32/125), some (8/125), none, []⟩ quietChunk (8/5)).frames
        = [] ∧
    (step ⟨[], some (32/125), some (8/125), none, []⟩ quietChunk
        (8/5)).published = [] := by
  have h := C2_min_duration_check_vacuous
    ⟨[], some (32/125), some (8/125), none, []⟩ quietChunk (8/5) (8/125)
    (32/125) rfl rfl (by norm_num) (by norm_num)
    (by rw [volSq_quietChunk, silence_threshold]; norm_num)
    (by rw [silence_duration]; norm_num)
  refine ⟨h.1, ?_⟩
  rw [h.2]
  simp [is_actual_speech_single_quiet]

/-- C3 (counterexample): the claim that a quiet chunk arriving in Idle is
discarded without being retained — the buffer staying empty until a transition
into ActiveSpeech — is false on the code: `frames.append(data)` runs before
classification, so after one quiet chunk the machine is still Idle yet the
frame buffer is nonempty (and the chunk ends up in the next saved payload). -/
theorem C3_counterexample :
    stateOf (run initState [ReadEvent.chunk quietChunk (chunkTime 0)]) =
        SegState.Idle ∧
      (run initState [ReadEvent.chunk quietChunk (chunkTime 0)]).frames ≠ [] := by
  rw [run_chunk_cons, show initState = (⟨[], none, none, none, []⟩ : MState)
    from rfl, step_quiet_ssnone, run_nil]
  exact ⟨rfl, by simp⟩

/-- C3 (amended): every processed chunk — quiet Idle chunks included — is
appended to the frame buffer; the buffer is reset to empty exactly at
finalization, which returns the machine to Idle.  Consequently a published
utterance contains every chunk read since the previous finalization (or loop
start), leading-silence and trailing-silence chunks included, not only the
chunks of ActiveSpeech and TrailingSilence. -/
theorem C3_buffer_appends_always (s : MState) (d : List ℤ) (t : ℚ) :
    (step s d t).frames = s.frames ++ [d] ∨
    ((step s d t).frames = [] ∧ (step s d t).recording_start = none ∧
      stateOf (step s d t) = SegState.Idle) := by
  rcases s with ⟨fr, sss, rs, la, pu⟩
  simp only [step]
  split
  · left; rfl
  · split
    · left; rfl
    · split
      · split
        · split
          · split
            · right; exact ⟨rfl, rfl, rfl⟩
            · right; exact ⟨rfl, rfl, rfl⟩
          · right; exact ⟨rfl, rfl, rfl⟩
        · left; rfl
      · left; rfl

/-- C4 (counterexample): the claim that publishing never leaves the store
referencing a released artifact is false on the code: `_save_audio_chunk`
unlinks the previous file before writing the new one, and a write failure is
caught without restoring anything, so with one live file "a" in the store a
failed write leaves the store still pointing at "a" after "a" was deleted. -/
theorem C4_counterexample :
    ¬ storeLive (save_audio_chunk ["a"] (some "a") "b" false) := by
  intro h
  have h2 := h "a" (by decide)
  revert h2
  decide

/-- C4 (amended): when the write succeeds, `_save_audio_chunk` atomically
replaces the artifact — the old file is unlinked, the new file is live and the
store points to it (so the store-consistency invariant holds after every
successful publish); but when the write fails after the old file was already
unlinked, the store is left referencing the deleted old name. -/
theorem C4_success_atomic_replace (files : List String) (f n : String)
    (hf : f ≠ "") :
    save_audio_chunk files (some f) n true = (n :: files.erase f, some n) ∧
    save_audio_chunk files (some f) n false = (files.erase f, some f) ∧
    storeLive (save_audio_chunk files (some f) n true) := by
  have h1 : save_audio_chunk files (some f) n true =
      (n :: files.erase f, some n) := by
    simp only [save_audio_chunk]
    rw [if_neg hf]
    simp
  have h2 : save_audio_chunk files (some f) n false =
      (files.erase f, some f) := by
    simp only [save_audio_chunk]
    rw [if_neg hf]
    simp
  refine ⟨h1, h2, ?_⟩
  rw [h1]
  intro g hg
  obtain rfl := Option.some.inj hg
  exact List.mem_cons_self _ _

/-- C4 (witness): the amended theorem at a concrete store: replacing live file
"x" by "y" succeeds atomically; a failed write strands the store on the
deleted "x". -/
theorem C4_success_atomic_replace_witness :
    save_audio_chunk ["x"] (some "x") "y" true = (["y"], some "y") ∧
    save_audio_chunk ["x"] (some "x") "y" false = ([], some "x") := by
  have h := C4_success_atomic_replace ["x"] "x" "y" (by decide)
  refine ⟨?_, ?_⟩
  · rw [h.1]; rfl
  · rw [h.2.1]; rfl

/-- C5 (counterexample): in the 20-loud/20-quiet scenario exactly one
utterance is published, but its duration is 296/125 s = 2.368 s — more than a
full second longer than the claimed ≈1.28 s, because the saved payload spans
all 37 chunks read up to finalization (the 20 active-speech chunks plus 17
trailing-silence chunks), not the active-speech span alone. -/
theorem C5_counterexample :
    (run initState c5events).published.length = 1 ∧
    (32/25 : ℚ) + 1 <
      utteranceDuration ((run initState c5events).published.headI) := by
  rw [run_c5]
  refine ⟨rfl, ?_⟩
  rw [show ([bufferLQ 20 17] : List (List ℤ)).headI = bufferLQ 20 17 from rfl,
    utteranceDuration, length_bufferLQ, sample_rate]
  norm_num

/-- C5 (amended): the 20-loud/20-quiet scenario publishes exactly one
utterance, of duration 296/125 s = 2.368 s (37 chunks of 1024 samples at
16 kHz: the active-speech span plus the trailing silence accumulated before
the silence timer fired). -/
theorem C5_one_utterance_2368ms :
    (run initState c5events).published.map utteranceDuration = [296/125] := by
  rw [run_c5]
  simp only [List.map_cons, List.map_nil]
  rw [utteranceDuration, length_bufferLQ, sample_rate]
  norm_num

/-- C6 (code bug): on a buffer holding both int16 extremes, the true dynamic
range `max - min = 65535` exceeds 1000 and the volume and zero-crossing-rate
conditions hold as well, so by the claim (and by the code's own comment
"difference between max and min") the verdict should be speech-like; but the
code computes the difference with numpy int16 arithmetic, `65535` wraps to
`-1`, and `_is_actual_speech` returns `False`. -/
theorem C6_dynamic_range_wraparound :
    is_actual_speech [bugInput] = false ∧
    speech_threshold ^ 2 < chunkVolumeSq bugInput ∧
    1000 < listMax bugInput - listMin bugInput ∧
    (1 : ℚ)/100 < (signChanges bugInput : ℚ) / (bugInput.length : ℚ) ∧
    (signChanges bugInput : ℚ) / (bugInput.length : ℚ) < 3/10 := by
  refine ⟨?_, ?_, ?_, ?_, ?_⟩
  · rw [is_actual_speech_eval _ (by simp) (by simp [length_bugInput])]
    rw [show ([bugInput] : List (List ℤ)).flatten = bugInput from by simp,
      listMax_bugInput, listMin_bugInput]
    rw [show toInt16 (32767 - -32768) = -1 from by decide]
    rw [decide_eq_false (by norm_num : ¬(1000 : ℤ) < -1)]
    simp
  · rw [volSq_bugInput, speech_threshold]
    norm_num
  · rw [listMax_bugInput, listMin_bugInput]
    norm_num
  · rw [signChanges_bugInput, length_bugInput]
    norm_num
  · rw [signChanges_bugInput, length_bugInput]
    norm_num

/-- C7: for every event sequence whose chunks all have volume at or below the
silence threshold, every prefix of the run leaves the machine in Idle, the
store empty (`get_latest_audio_file` returns nothing) and the published trace
empty: the state machine never leaves Idle and no utterance ever exists. -/
theorem C7_all_quiet_stays_idle (evs : List ReadEvent)
    (hall : ∀ d t, ReadEvent.chunk d t ∈ evs →
      chunkVolumeSq d ≤ silence_threshold ^ 2)
    (pre suf : List ReadEvent) (hsplit : evs = pre ++ suf) :
    stateOf (run initState pre) = SegState.Idle ∧
    get_latest_audio_file (run initState pre) = none ∧
    (run initState pre).published = [] := by
  have hpre : ∀ d t, ReadEvent.chunk d t ∈ pre →
      chunkVolumeSq d ≤ silence_threshold ^ 2 := fun d t hm =>
    hall d t (by rw [hsplit]; exact List.mem_append_left _ hm)
  have hinv := run_quiet_inv pre initState ⟨rfl, rfl, rfl⟩ hpre
  obtain ⟨h1, h2, h3⟩ := hinv
  exact ⟨stateOf_idle _ h1, h2, h3⟩

/-- C7 (witness): the theorem applied to the one-element all-quiet sequence,
taken as its own full prefix. -/
theorem C7_all_quiet_stays_idle_witness :
    stateOf (run initState [ReadEvent.chunk quietChunk (chunkTime 0)]) =
        SegState.Idle ∧
    get_latest_audio_file
        (run initState [ReadEvent.chunk quietChunk (chunkTime 0)]) = none ∧
    (run initState [ReadEvent.chunk quietChunk (chunkTime 0)]).published = [] :=
  C7_all_quiet_stays_idle [ReadEvent.chunk quietChunk (chunkTime 0)]
    (fun d t h => by
      rw [List.mem_singleton] at h
      obtain ⟨rfl, rfl⟩ := ReadEvent.chunk.inj h
      rw [volSq_quietChunk, silence_threshold]
      norm_num)
    [ReadEvent.chunk quietChunk (chunkTime 0)] [] (by simp)

/-- C8: the per-chunk volume classification is a total function that never
produces a negative (in particular never a non-finite) squared volume; on the
empty chunk it returns 0, and on a nonempty chunk it returns exactly the mean
of the squared samples (the square of the RMS volume), computed in exact
arithmetic — the embedding's counterpart of numpy's float64 widening. -/
theorem C8_classify_total (samples : List ℤ) :
    0 ≤ chunkVolumeSq samples ∧
    (samples = [] → chunkVolumeSq samples = 0) ∧
    (samples ≠ [] →
      chunkVolumeSq samples * samples.length = (sumsq samples : ℚ)) := by
  have hnn : (0 : ℤ) ≤ sumsq samples := by
    induction samples with
    | nil => simp
    | cons x t ih => simpa using add_nonneg (mul_self_nonneg x) ih
  refine ⟨?_, ?_, ?_⟩
  · rw [chunkVolumeSq]
    split
    · exact div_nonneg (by exact_mod_cast hnn) (by positivity)
    · exact le_refl 0
  · intro h
    subst h
    rfl
  · intro h
    rw [chunkVolumeSq, if_pos (List.length_pos.2 h)]
    have hne : (samples.length : ℚ) ≠ 0 := by
      exact_mod_cast (List.length_pos.2 h).ne'
    field_simp

/-- C8 (witness): the theorem at the chunk `[3, 4]`: nonnegative squared
volume equal to (3² + 4²)/2. -/
theorem C8_classify_total_witness :
    0 ≤ chunkVolumeSq [(3 : ℤ), 4] ∧
    chunkVolumeSq [(3 : ℤ), 4] * (([(3 : ℤ), 4] : List ℤ).length : ℚ) =
      (sumsq [(3 : ℤ), 4] : ℚ) := by
  have h := C8_classify_total [(3 : ℤ), 4]
  exact ⟨h.1, h.2.2 (by simp)⟩

/-- C9: `clear_latest_audio` is idempotent — applying it to its own result is
a fixed point — and (for any reachable store value, i.e. anything except the
unreachable empty-string filename, which Python truthiness would skip) one
call already leaves the store empty, so the second call is a no-op; the
function is total, so no call raises. -/
theorem C9_clear_idempotent (files : List String) (latest : Option String) :
    clear_latest_audio (clear_latest_audio files latest).1
        (clear_latest_audio files latest).2 = clear_latest_audio files latest ∧
    (latest ≠ some "" → (clear_latest_audio files latest).2 = none) := by
  cases latest with
  | none => exact ⟨rfl, fun _ => rfl⟩
  | some f =>
    by_cases hf : f = ""
    · subst hf
      exact ⟨rfl, fun h => absurd rfl h⟩
    · have h1 : clear_latest_audio files (some f) = (files.erase f, none) := by
        simp only [clear_latest_audio]
        rw [if_neg hf]
      rw [h1]
      exact ⟨rfl, fun _ => rfl⟩

/-- C9 (witness): the theorem at a store holding live file "x": the first
clear empties the store and the second is a no-op. -/
theorem C9_clear_idempotent_witness :
    clear_latest_audio (clear_latest_audio ["x"] (some "x")).1
        (clear_latest_audio ["x"] (some "x")).2 =
      clear_latest_audio ["x"] (some "x") ∧
    (clear_latest_audio ["x"] (some "x")).2 = none := by
  have h := C9_clear_idempotent ["x"] (some "x")
  exact ⟨h.1, h.2 (by decide)⟩

/-- C10: the whole-buffer speech check is total at its interface: on an empty
frame list, or on any frame list whose concatenation has zero samples, it
returns `false` (and, being a total function, the embedded check — like the
Python original, whose body is wrapped in a `try/except` returning `False` —
never propagates an error to the caller). -/
theorem C10_speech_check_total (frames : List (List ℤ))
    (h : frames.flatten = []) : is_actual_speech frames = false := by
  cases frames with
  | nil => rfl
  | cons c t => simp [is_actual_speech, h]

/-- C10 (witness): the theorem at a nonempty frame list of empty chunks. -/
theorem C10_speech_check_total_witness :
    is_actual_speech [([] : List ℤ), []] = false :=
  C10_speech_check_total [[], []] (by simp)

end AudioCapture
